import Mathlib

/-!
Shallow embedding of the conversation-state reconciliation and
streaming-update engine of the chat client (`src/App.tsx`,
`src/services/geminiService.ts`, `src/types.ts`).

Pure data (sessions, messages, attachments, citations) becomes Lean
structures; the stateful `handleSendMessage` turn is modelled as an
explicit state transformation plus a deterministic trace of the
placeholder-message mutations, parameterised by the outcomes of the
external calls and by a cancellation schedule (the await index during
which the process-wide cancellation flag is set).
-/

namespace ChatApp

/-- Message author, `'user' | 'model'` in `types.ts`. -/
inductive MessageAuthor where
  | user
  | model
deriving Repr, DecidableEq

/-- `Attachment` from `types.ts`: `{name, url, type}`. -/
structure Attachment where
  name : String
  url : String
  type : String
deriving Repr, DecidableEq

/-- The `web` payload of a grounding chunk: `{uri, title}`. -/
structure GroundingWeb where
  uri : String
  title : String
deriving Repr, DecidableEq

/-- `GroundingChunk` from `types.ts`: `{web: {uri, title}}`. -/
structure GroundingChunk where
  web : GroundingWeb
deriving Repr, DecidableEq

/-- A raw `File` handle, as used for the `files` field of user messages.
The `handle` field stands for the host object's identity/content, which
is opaque to the application code. -/
structure RawFile where
  name : String
  type : String
  handle : Nat
deriving Repr, DecidableEq

/-- `ChatMessage` from `types.ts`, polymorphic in the type of raw file
handles so that persistence (which cannot serialize host `File`
objects) can be expressed as a change of that type parameter.  Optional
list-valued fields (`attachments?`, `groundingChunks?`, `files?`) are
modelled as plain lists, absent = `[]`: every read in `App.tsx` guards
them with optional chaining or `|| []`, so the two are observationally
identical. -/
structure ChatMessage (F : Type) where
  id : String
  author : MessageAuthor
  content : String
  attachments : List Attachment
  groundingChunks : List GroundingChunk
  files : List F
deriving Repr, DecidableEq

/-- `ChatSession` from `types.ts`. -/
structure ChatSession (F : Type) where
  id : String
  title : String
  messages : List (ChatMessage F)
  isPinned : Bool
deriving Repr, DecidableEq

/-- A live (in-memory) chat message, carrying raw file handles. -/
abbrev CMsg := ChatMessage RawFile

/-- A live (in-memory) chat session. -/
abbrev CSession := ChatSession RawFile

/-! ### String helpers (JS `String.prototype.includes`) -/

/-- Does the first character list start with the second one? -/
def charsStartWith : List Char → List Char → Bool
  | _, [] => true
  | [], _ :: _ => false
  | c :: cs, d :: ds => c == d && charsStartWith cs ds

/-- Does the second character list occur contiguously in the first?
`sub` is the needle; the list argument is the haystack. -/
def charsInclude (sub : List Char) : List Char → Bool
  | [] => sub.isEmpty
  | c :: rest => charsStartWith (c :: rest) sub || charsInclude sub rest

/-- JS `s.includes(sub)`: contiguous substring test. -/
def includesStr (s sub : String) : Bool :=
  charsInclude sub.toList s.toList

/-- JS `s.toLowerCase()`, as the character-wise lowering of the
underlying character sequence. -/
def strToLower (s : String) : String :=
  ⟨s.data.map Char.toLower⟩

/-- JS `s.startsWith(p)`. -/
def strStartsWith (s p : String) : Bool :=
  charsStartWith s.data p.data

/-! ### History projection (`messagesToHistory` in `App.tsx`) -/

/-- One entry of the backend history: `{role, parts: [{text}]}`. -/
structure HistoryEntry where
  role : MessageAuthor
  parts : List String
deriving Repr, DecidableEq

/-- `messagesToHistory` from `App.tsx`: keep messages whose `content`
is truthy (non-empty) and map each to `{role: msg.author, parts:
[{text: msg.content}]}`.  Attachments, citations and files are
dropped. -/
def messagesToHistory (messages : List CMsg) : List HistoryEntry :=
  (messages.filter (fun msg => decide (msg.content ≠ ""))).map
    (fun msg => ⟨msg.author, [msg.content]⟩)

/-! ### Citation accumulation (the `groundingChunksMap` in the stream
loop of `handleSendMessage`) -/

/-- A raw grounding-chunk candidate as received from a stream chunk
(`chunk: any` with an optional `web` payload). -/
structure Candidate where
  web : Option GroundingWeb
deriving Repr, DecidableEq

/-- The accumulated citation map, modelling a JS
`Map<string, GroundingChunk['web']>` as an insertion-ordered
association list. -/
abbrev CiteMap := List (String × GroundingWeb)

/-- JS `Map.prototype.set`: if the key is present, replace its value in
place (keeping the entry's original position); otherwise append a new
entry at the end. -/
def mapSet (m : CiteMap) (k : String) (v : GroundingWeb) : CiteMap :=
  if m.any (fun p => decide (p.1 = k)) then
    m.map (fun p => if p.1 = k then (k, v) else p)
  else
    m ++ [(k, v)]

/-- One step of the `forEach` body in the stream loop:
`if (chunk.web?.uri) { groundingChunksMap.set(chunk.web.uri, chunk.web) }`
(a missing `web` or a falsy — empty — `uri` is skipped). -/
def insertChunk (m : CiteMap) (c : Candidate) : CiteMap :=
  match c.web with
  | some w => if w.uri ≠ "" then mapSet m w.uri w else m
  | none => m

/-- Folding a whole sequence of candidates into the citation map, as
the stream loop does across chunks. -/
def mergeChunks (m : CiteMap) (cs : List Candidate) : CiteMap :=
  cs.foldl insertChunk m

/-- The `web` payload of a candidate, if it passes the truthiness guard
(`chunk.web?.uri`). -/
def candWeb (c : Candidate) : Option GroundingWeb :=
  match c.web with
  | some w => if w.uri = "" then none else some w
  | none => none

/-- The URIs of the candidates that pass the guard, in arrival order. -/
def validUris (cs : List Candidate) : List String :=
  (cs.filterMap candWeb).map (fun w => w.uri)

/-- All guarded candidate payloads with the given URI, in arrival
order. -/
def validFor (cs : List Candidate) (k : String) : List GroundingWeb :=
  (cs.filterMap candWeb).filter (fun w => decide (w.uri = k))

/-- The key sequence of a citation map. -/
def keysOf (m : CiteMap) : List String :=
  m.map Prod.fst

/-- JS `Map.prototype.get`: the value stored at a key, if any. -/
def lookupVal (m : CiteMap) (k : String) : Option GroundingWeb :=
  (m.find? (fun p => decide (p.1 = k))).map Prod.snd

/-- Deduplication keeping the first occurrence of each element,
relative to an initial set of already-seen keys. -/
def dedupKeepFirst (seen : List String) : List String → List String
  | [] => []
  | k :: rest =>
    if k ∈ seen then dedupKeepFirst seen rest
    else k :: dedupKeepFirst (k :: seen) rest

/-! ### Intent classification (`handleSendMessage`, `App.tsx`) -/

/-- The fixed keyword set of `handleSendMessage`. -/
def imageKeywords : List String :=
  ["画像", "作って", "生成", "描いて", "generate", "draw", "create",
   "show me a picture of"]

/-- `isDirectImageRequest`: some keyword occurs in the lowercased user
input and no attachments were supplied. -/
def isDirectImageRequest (userInput : String) (attachments : List RawFile) :
    Bool :=
  imageKeywords.any (fun keyword => includesStr (strToLower userInput) keyword)
    && attachments.isEmpty

/-- The follow-up image-edit candidate test of `handleSendMessage`: the
last base message is a model message with an image attachment, the one
before it is a user message, and the current turn has no attachments.
Returns the original prompt (the prior user message's content) when
the test passes. -/
def followUpCheck (base : List CMsg) (attachments : List RawFile) :
    Option String :=
  let lastMessage := if base.length > 0 then base[base.length - 1]? else none
  let secondToLastMessage :=
    if base.length > 1 then base[base.length - 2]? else none
  match lastMessage, secondToLastMessage with
  | some lm, some slm =>
    if lm.author = .model
        ∧ lm.attachments.any (fun a => strStartsWith a.type "image/")
        ∧ slm.author = .user
        ∧ attachments.length = 0 then
      some slm.content
    else none
  | _, _ => none

/-- The outcome of the (possibly skipped) `generateRefinedPrompt` call:
`(isFollowUpImageRequest, promptForImage)`.  `refinedOf` is the
external classifier, called with (original prompt, new user input);
the sentinel result `"NO_MODIFICATION"` leaves the turn unclassified
and the prompt at the raw user input. -/
def followUpResult (fu : Option String) (userInput : String)
    (refinedOf : String → String → String) : Bool × String :=
  match fu with
  | some originalPrompt =>
    let refinedResult := refinedOf originalPrompt userInput
    if refinedResult = "NO_MODIFICATION" then (false, userInput)
    else (true, refinedResult)
  | none => (false, userInput)

/-- The classification of one turn. -/
inductive TurnKind where
  | textTurn
  | imageTurn (prompt : String)
deriving Repr, DecidableEq

/-- The intent classification performed by `handleSendMessage`:
`isImageRequest = isDirectImageRequest || isFollowUpImageRequest`, with
`promptForImage` set to the refined prompt exactly when the follow-up
classification succeeded. -/
def classifyIntent (base : List CMsg) (userInput : String)
    (attachments : List RawFile) (refinedOf : String → String → String) :
    TurnKind :=
  let fr := followUpResult (followUpCheck base attachments) userInput refinedOf
  let isDirect := isDirectImageRequest userInput attachments
  if isDirect || fr.1 then .imageTurn fr.2 else .textTurn

/-- The intent-classification decision procedure as the specification
words it, in order: (1) on a follow-up candidate, invoke the external
classifier and, on a non-sentinel result, classify as an image turn
with the rewritten prompt; (2) otherwise, on a keyword match with no
attachments, classify as an image turn with the raw input; (3)
otherwise a text turn. -/
def classifyIntentSpec (base : List CMsg) (userInput : String)
    (attachments : List RawFile) (refinedOf : String → String → String) :
    TurnKind :=
  match followUpCheck base attachments with
  | some originalPrompt =>
    let r := refinedOf originalPrompt userInput
    if r ≠ "NO_MODIFICATION" then .imageTurn r
    else if isDirectImageRequest userInput attachments then
      .imageTurn userInput
    else .textTurn
  | none =>
    if isDirectImageRequest userInput attachments then .imageTurn userInput
    else .textTurn

/-! ### The streamed turn (the `try` block of `handleSendMessage`)

The asynchronous part of `handleSendMessage` is modelled as a
deterministic function of the outcomes of the external calls, together
with a cancellation schedule `cAt : Option Nat`: `some m` means the
user sets the process-wide cancellation flag while the `m`-th await
(0-indexed, counted in execution order) is pending.  The flag starts
false (`isCancelledRef.current = false` at turn start) and, once set,
stays set, so a flag check performed after `c` awaits have completed
reads true exactly when `m < c`.  Each mutation of the placeholder
model message is recorded in a trace, tagged with the number of awaits
completed when it was applied. -/

/-- The observable state of the placeholder model message: its
content, its citation list and its attachments. -/
structure PState where
  content : String
  gchunks : List GroundingChunk
  atts : List Attachment
deriving Repr, DecidableEq

/-- The placeholder as appended by the optimistic update: empty
content, empty citation list, no attachments. -/
def initialP : PState := ⟨"", [], []⟩

/-- One chunk of the streamed text response: an optional text delta
and the grounding-chunk candidates it carries (absent metadata is the
empty list — `forEach` over it is then a no-op, as in the source). -/
structure Chunk where
  text : Option String
  cands : List Candidate
deriving Repr, DecidableEq

/-- The outcome of one turn: the trace of placeholder mutations (each
tagged with the await count at the time it was applied), the error
surfaced via `setError` (if any), and the number of awaits performed. -/
structure TurnResult where
  muts : List (Nat × PState)
  errorOut : Option String
  awaitCount : Nat
deriving Repr, DecidableEq

/-- Reading the cancellation flag after `counter` awaits have
completed, under schedule `cAt`. -/
def flagSet (cAt : Option Nat) (counter : Nat) : Bool :=
  match cAt with
  | some m => decide (m < counter)
  | none => false

/-- The `for await` loop over stream chunks.  Each iteration pulls a
chunk (one await), checks the cancellation flag and breaks if it is
set; otherwise it appends the truthy text delta to `fullResponse`,
folds the candidates into the citation map, and overwrites the
placeholder with the new content and aggregated citation list.
Returns the recorded mutations and the final await count. -/
def streamLoop (cAt : Option Nat) (fullResponse : String) (cmap : CiteMap)
    (counter : Nat) : List Chunk → List (Nat × PState) × Nat
  | [] => ([], counter + 1)
  | c :: rest =>
    let counter1 := counter + 1
    if flagSet cAt counter1 then ([], counter1)
    else
      let full1 :=
        match c.text with
        | some s => if s ≠ "" then fullResponse ++ s else fullResponse
        | none => fullResponse
      let cmap1 := mergeChunks cmap c.cands
      let aggregated := cmap1.map (fun p => GroundingChunk.mk p.2)
      ((counter1, ⟨full1, aggregated, []⟩)
         :: (streamLoop cAt full1 cmap1 counter1 rest).1,
       (streamLoop cAt full1 cmap1 counter1 rest).2)

/-- Is this turn classified as an image turn? -/
def turnIsImage (base : List CMsg) (userInput : String)
    (attachments : List RawFile) (refinedOf : String → String → String) :
    Bool :=
  isDirectImageRequest userInput attachments
    || (followUpResult (followUpCheck base attachments) userInput refinedOf).1

/-- The `try` block of `handleSendMessage`, from classification
onwards.  `refinedOf` is the external modification classifier (which
never throws, see `generateRefinedPromptModel`); `imageResult` is the
outcome of `generateImage`; `streamOpen` is the outcome of opening the
text stream (its finite chunk list on success).  Await numbering: the
classifier call (only on a follow-up candidate), then either the
image-generation call or the stream-open call followed by one await
per chunk pull. -/
def runTurn (base : List CMsg) (userInput : String)
    (attachments : List RawFile) (refinedOf : String → String → String)
    (imageResult : Except String String)
    (streamOpen : Except String (List Chunk)) (cAt : Option Nat) :
    TurnResult :=
  let counter0 := if (followUpCheck base attachments).isSome then 1 else 0
  match classifyIntent base userInput attachments refinedOf with
  | .imageTurn promptForImage =>
    let genMut : Nat × PState :=
      (counter0, ⟨"Generating your image...", [], []⟩)
    match imageResult with
    | .ok base64ImageBytes =>
      if flagSet cAt (counter0 + 1) then ⟨[genMut], none, counter0 + 1⟩
      else
        let imageAttachment : Attachment :=
          ⟨"Generated image for \"" ++ promptForImage.take 40 ++ "...\"",
           "data:image/png;base64," ++ base64ImageBytes, "image/png"⟩
        ⟨[genMut,
          (counter0 + 1,
           ⟨"Here is the image you requested.", [], [imageAttachment]⟩)],
         none, counter0 + 1⟩
    | .error e =>
      if flagSet cAt (counter0 + 1) then ⟨[genMut], none, counter0 + 1⟩
      else
        ⟨[genMut, (counter0 + 1, ⟨"Error: " ++ e, [], []⟩)], some e,
         counter0 + 1⟩
  | .textTurn =>
    match streamOpen with
    | .error e =>
      if flagSet cAt (counter0 + 1) then ⟨[], none, counter0 + 1⟩
      else ⟨[(counter0 + 1, ⟨"Error: " ++ e, [], []⟩)], some e, counter0 + 1⟩
    | .ok chunks =>
      ⟨(streamLoop cAt "" [] (counter0 + 1) chunks).1, none,
       (streamLoop cAt "" [] (counter0 + 1) chunks).2⟩

/-- The placeholder state at the end of the turn. -/
def finalState (r : TurnResult) : PState :=
  ((r.muts.getLast?).map Prod.snd).getD initialP

/-- The placeholder state at the moment the cancellation flag was set
(schedule `some m`): the last mutation applied while at most `m`
awaits had completed. -/
def stateAtCancel (r : TurnResult) (m : Nat) : PState :=
  (((r.muts.filter (fun p => decide (p.1 ≤ m))).getLast?).map Prod.snd).getD
    initialP

/-! ### App state and the synchronous prefix of `handleSendMessage` -/

/-- The `editingMessage` state: `{id, content}`. -/
structure EditTarget where
  id : String
  content : String
deriving Repr, DecidableEq

/-- The `App` component state relevant to the claims. -/
structure AppState where
  sessions : List CSession
  activeSessionId : Option String
  isLoading : Bool
  error : Option String
  editingMessage : Option EditTarget
deriving Repr, DecidableEq

/-- Everything `handleSendMessage` computes before its `try` block and
hands to the asynchronous part. -/
structure TurnSetup where
  sessionId : String
  baseMessages : List CMsg
  historyForAPI : List HistoryEntry
  userMessage : CMsg
  modelMessageId : String
deriving Repr, DecidableEq

/-- The session-resolution step of `handleSendMessage`: reuse the
active session when it exists, otherwise create a fresh one (titled by
truncating the input to 40 characters with an ellipsis marker) and
prepend it to the collection.  Returns (current session id, session to
update, session collection after a possible creation). -/
def resolveSession (st : AppState) (newSessionId title : String) :
    String × CSession × List CSession :=
  match st.activeSessionId with
  | some cid =>
    match st.sessions.find? (fun s => decide (s.id = cid)) with
    | some s => (cid, s, st.sessions)
    | none =>
      let newSession : CSession := ⟨newSessionId, title, [], false⟩
      (newSessionId, newSession, newSession :: st.sessions)
  | none =>
    let newSession : CSession := ⟨newSessionId, title, [], false⟩
    (newSessionId, newSession, newSession :: st.sessions)

/-- The synchronous prefix of `handleSendMessage`, up to and including
the optimistic update and the clearing of the edit mode.  The fresh
ids (`session-…`, `user-…`, `model-…` from `Date.now()`) are
parameters, as is `urlOf`, modelling `URL.createObjectURL`.  Returns
the updated state and, unless the attachments-while-editing guard
returned early, the computed turn setup. -/
def handleSendMessageSetup (st : AppState) (userInput : String)
    (attachments : List RawFile)
    (newSessionId userMsgId modelMsgId : String)
    (urlOf : RawFile → String) : AppState × Option TurnSetup :=
  if st.editingMessage.isSome && !attachments.isEmpty then (st, none)
  else
    let resolved := resolveSession st newSessionId
      (userInput.take 40 ++ (if userInput.length > 40 then "..." else ""))
    let currentSessionId := resolved.1
    let sessionToUpdate := resolved.2.1
    let sessions1 := resolved.2.2
    let userMessage : CMsg :=
      ⟨userMsgId, .user, userInput,
       attachments.map (fun file => ⟨file.name, urlOf file, file.type⟩),
       [], attachments⟩
    let modelMessagePlaceholder : CMsg := ⟨modelMsgId, .model, "", [], [], []⟩
    let baseMessages :=
      match st.editingMessage with
      | some e =>
        match sessionToUpdate.messages.findIdx?
            (fun mm => decide (mm.id = e.id)) with
        | some editIndex => sessionToUpdate.messages.take editIndex
        | none => sessionToUpdate.messages
      | none => sessionToUpdate.messages
    let historyForAPI := messagesToHistory baseMessages
    let newMessages := baseMessages ++ [userMessage, modelMessagePlaceholder]
    let sessions2 := sessions1.map (fun s =>
      if s.id = currentSessionId then { s with messages := newMessages }
      else s)
    ({ sessions := sessions2,
       activeSessionId := some currentSessionId,
       isLoading := true,
       error := none,
       editingMessage := none },
     some ⟨currentSessionId, baseMessages, historyForAPI, userMessage,
           modelMsgId⟩)

/-- `handleRegenerate` from `App.tsx`: locate the model message in the
active session; if it has a predecessor and that predecessor is a user
message, truncate the session's messages to everything before the
predecessor and re-submit the predecessor's content and raw file
handles as a new turn.  Returns `none` when the handler is a no-op,
otherwise the updated state together with the re-submitted (content,
files). -/
def handleRegenerate (st : AppState) (modelMessageId : String) :
    Option (AppState × String × List RawFile) :=
  match st.activeSessionId with
  | none => none
  | some cid =>
    match st.sessions.find? (fun s => decide (s.id = cid)) with
    | none => none
    | some activeSession =>
      match activeSession.messages.findIdx?
          (fun msg => decide (msg.id = modelMessageId)) with
      | none => none
      | some modelMessageIndex =>
        if modelMessageIndex > 0 then
          match activeSession.messages[modelMessageIndex - 1]? with
          | some userMessageToResend =>
            if userMessageToResend.author = .user then
              let messagesBeforeRegen :=
                activeSession.messages.take (modelMessageIndex - 1)
              let sessions1 := st.sessions.map (fun s =>
                if s.id = cid then { s with messages := messagesBeforeRegen }
                else s)
              some ({ st with sessions := sessions1 },
                    userMessageToResend.content, userMessageToResend.files)
            else none
          | none => none
        else none

/-! ### Keyed whole-session-replacement updates (`App.tsx`) -/

/-- `updateSessionMessages` inside `handleSendMessage`: replace the
messages of the session with the given id via `updater`, leaving every
other session untouched. -/
def updateSessionMessages (sessions : List CSession) (cid : String)
    (updater : List CMsg → List CMsg) : List CSession :=
  sessions.map (fun s =>
    if s.id = cid then { s with messages := updater s.messages } else s)

/-- `handleRenameSession`: retitle the session with the given id. -/
def handleRenameSession (sessions : List CSession) (sessionId : String)
    (newTitle : String) : List CSession :=
  sessions.map (fun s =>
    if s.id = sessionId then { s with title := newTitle } else s)

/-- `handlePinSession`: set the pinned flag of the session with the
given id. -/
def handlePinSession (sessions : List CSession) (sessionId : String)
    (isPinned : Bool) : List CSession :=
  sessions.map (fun s =>
    if s.id = sessionId then { s with isPinned := isPinned } else s)

/-! ### Persistence (the load/save effects of `App`)

Saving runs `JSON.stringify` over the session collection and loading
runs `JSON.parse` on the stored string.  All fields are plain
JSON-serializable data except the raw `File` handles in `files`, which
carry no enumerable own properties and therefore serialize with their
content lost.  This is modelled as a change of the file-handle type
parameter to `Unit`: persistence erases exactly the handles, and the
parse of the stringify of plain data is the identity. -/

/-- The durable form of a message: raw file handles erased. -/
def persistMessage (m : CMsg) : ChatMessage Unit :=
  { id := m.id, author := m.author, content := m.content,
    attachments := m.attachments, groundingChunks := m.groundingChunks,
    files := m.files.map (fun _ => ()) }

/-- The durable form of a session. -/
def persistSession (s : CSession) : ChatSession Unit :=
  { id := s.id, title := s.title, messages := s.messages.map persistMessage,
    isPinned := s.isPinned }

/-- The save effect: serialize the whole collection. -/
def persistSessions (ss : List CSession) : List (ChatSession Unit) :=
  ss.map persistSession

/-- The load effect: parse the stored collection back (identity on the
serialized data). -/
def loadSessions (stored : List (ChatSession Unit)) :
    List (ChatSession Unit) :=
  stored

/-! ### The modification classifier (`generateRefinedPrompt`,
`geminiService.ts`) -/

/-- `generateRefinedPrompt`: the whole body is one `try`/`catch`.  The
underlying work (client lookup plus the `generateContent` call,
yielding `response.text`) is modelled by its outcome `callResult`; on
success the trimmed text is returned, and on any internal failure the
`catch` returns the sentinel `"NO_MODIFICATION"` instead of
rethrowing. -/
def generateRefinedPromptModel (callResult : Except String String) :
    Except String String :=
  match callResult with
  | .ok text => .ok text.trim
  | .error _ => .ok "NO_MODIFICATION"

/-! ### Concrete fixtures used by witnesses and counterexamples -/

/-- A message with no attachments, citations or files. -/
def mkMsg (id : String) (author : MessageAuthor) (content : String) : CMsg :=
  ⟨id, author, content, [], [], []⟩

/-- A sample raw file handle. -/
def exFile : RawFile := ⟨"photo.png", "image/png", 7⟩

/-- Two citation candidates with the same URI and different titles. -/
def csDup : List Candidate :=
  [⟨some ⟨"https://a.example", "t1"⟩⟩, ⟨some ⟨"https://a.example", "t2"⟩⟩]

/-- A base history ending in a model message that carries an image
attachment, preceded by a user message: a follow-up image-edit
candidate. -/
def baseFU : List CMsg :=
  [mkMsg "u1" .user "a cat",
   ⟨"m1", .model, "Here is the image you requested.",
    [⟨"Generated image", "data:image/png;base64,AA", "image/png"⟩], [], []⟩]

/-- A five-message session. -/
def exSession5 : CSession :=
  ⟨"s1", "t",
   [mkMsg "m0" .user "q0", mkMsg "m1" .model "a0", mkMsg "m2" .user "q1",
    mkMsg "m3" .model "a1", mkMsg "m4" .model "a2"], false⟩

/-- An app state editing the message at index 2 of `exSession5`. -/
def exState5 : AppState :=
  ⟨[exSession5], some "s1", false, none, some ⟨"m2", "q1"⟩⟩

/-- A session whose second user message carries a raw file handle. -/
def exSessionR : CSession :=
  ⟨"s2", "t",
   [mkMsg "r0" .user "q0", mkMsg "r1" .model "a0",
    ⟨"r2", .user, "q1", [], [], [exFile]⟩, mkMsg "r3" .model "a1"], false⟩

/-- An app state with `exSessionR` active. -/
def exStateR : AppState := ⟨[exSessionR], some "s2", false, none, none⟩

/-- A session with id `"a"`. -/
def sA : CSession := ⟨"a", "ta", [], false⟩

/-- A session with id `"b"`. -/
def sB : CSession := ⟨"b", "tb", [mkMsg "x" .user "hi"], true⟩

/-- An app state that is in edit mode. -/
def exStateE : AppState := ⟨[sA], some "a", false, none, some ⟨"x", "old"⟩⟩

/-! ## Theorems -/

/-! ### General helper lemmas -/

theorem findIdx_lt_len {α : Type} {p : α → Bool} {l : List α} {i : Nat}
    (h : l.findIdx? p = some i) : i < l.length := by
  rcases List.findIdx?_eq_some_iff_getElem.mp h with ⟨hl, -⟩
  exact hl

theorem find_map_keyed (g : CSession → CSession)
    (hg : ∀ s, (g s).id = s.id) (l : List CSession) (cid : String) :
    (l.map g).find? (fun s => decide (s.id = cid)) =
      (l.find? (fun s => decide (s.id = cid))).map g := by
  induction l with
  | nil => rfl
  | cons a t ih =>
    simp only [List.map_cons, List.find?_cons, hg a]
    by_cases h : a.id = cid
    · simp [h]
    · simp [h, ih]

/-! ### Helper lemmas about the citation map -/

theorem insertChunk_none {c : Candidate} (h : candWeb c = none)
    (m : CiteMap) : insertChunk m c = m := by
  unfold insertChunk
  unfold candWeb at h
  cases hc : c.web with
  | none => rfl
  | some w =>
    rw [hc] at h
    by_cases hu : w.uri = ""
    · simp [hu]
    · simp [hu] at h

theorem insertChunk_some {c : Candidate} {w : GroundingWeb}
    (h : candWeb c = some w) (m : CiteMap) :
    insertChunk m c = mapSet m w.uri w := by
  unfold insertChunk
  unfold candWeb at h
  cases hc : c.web with
  | none => rw [hc] at h; exact absurd h (by simp)
  | some w1 =>
    rw [hc] at h
    by_cases hu : w1.uri = ""
    · simp [hu] at h
    · simp only [hu, if_neg, if_false] at h
      simp only [Option.some.injEq] at h
      subst h
      simp [hu]

theorem validUris_cons_none {c : Candidate} (h : candWeb c = none)
    (cs : List Candidate) : validUris (c :: cs) = validUris cs := by
  unfold validUris
  rw [List.filterMap_cons, h]

theorem validUris_cons_some {c : Candidate} {w : GroundingWeb}
    (h : candWeb c = some w) (cs : List Candidate) :
    validUris (c :: cs) = w.uri :: validUris cs := by
  unfold validUris
  rw [List.filterMap_cons, h]
  rfl

theorem validFor_cons_none {c : Candidate} (h : candWeb c = none)
    (cs : List Candidate) (k : String) :
    validFor (c :: cs) k = validFor cs k := by
  unfold validFor
  rw [List.filterMap_cons, h]

theorem validFor_cons_some {c : Candidate} {w : GroundingWeb}
    (h : candWeb c = some w) (cs : List Candidate) (k : String) :
    validFor (c :: cs) k =
      if w.uri = k then w :: validFor cs k else validFor cs k := by
  unfold validFor
  rw [List.filterMap_cons, h]
  show List.filter _ (w :: _) = _
  rw [List.filter_cons]
  by_cases hk : w.uri = k <;> simp [hk]

theorem mergeChunks_cons (m : CiteMap) (c : Candidate) (cs : List Candidate) :
    mergeChunks m (c :: cs) = mergeChunks (insertChunk m c) cs := rfl

theorem keysOf_mapSet (m : CiteMap) (k : String) (v : GroundingWeb) :
    keysOf (mapSet m k v) =
      if k ∈ keysOf m then keysOf m else keysOf m ++ [k] := by
  by_cases h : k ∈ keysOf m
  · have hany : m.any (fun p => decide (p.1 = k)) = true := by
      rcases List.mem_map.mp h with ⟨p, hp, hpk⟩
      exact List.any_eq_true.mpr ⟨p, hp, by simp [hpk]⟩
    rw [if_pos h]
    simp only [mapSet, hany, if_true, keysOf, List.map_map]
    refine List.map_congr_left ?_
    intro p _
    by_cases hpk : p.1 = k
    · simp [Function.comp, hpk]
    · simp [Function.comp, hpk]
  · have hany : m.any (fun p => decide (p.1 = k)) = false := by
      rw [List.any_eq_false]
      intro p hp
      simp only [decide_eq_true_eq]
      intro hpk
      exact h (List.mem_map.mpr ⟨p, hp, hpk⟩)
    rw [if_neg h]
    simp [mapSet, hany, keysOf]

theorem nodup_keysOf_mapSet (m : CiteMap) (k : String) (v : GroundingWeb)
    (h : (keysOf m).Nodup) : (keysOf (mapSet m k v)).Nodup := by
  rw [keysOf_mapSet]
  by_cases hk : k ∈ keysOf m
  · simpa [hk] using h
  · rw [if_neg hk, List.nodup_append]
    refine ⟨h, List.nodup_singleton k, ?_⟩
    intro a ha hb
    rw [List.mem_singleton] at hb
    exact hk (hb ▸ ha)

theorem dedupKeepFirst_congr :
    ∀ (l seen seen2 : List String), (∀ x, x ∈ seen ↔ x ∈ seen2) →
      dedupKeepFirst seen l = dedupKeepFirst seen2 l := by
  intro l
  induction l with
  | nil => intro seen seen2 _; rfl
  | cons k rest ih =>
    intro seen seen2 h
    by_cases hk : k ∈ seen
    · have hk2 : k ∈ seen2 := (h k).mp hk
      simp only [dedupKeepFirst, if_pos hk, if_pos hk2]
      exact ih seen seen2 h
    · have hk2 : k ∉ seen2 := fun c => hk ((h k).mpr c)
      simp only [dedupKeepFirst, if_neg hk, if_neg hk2]
      rw [ih (k :: seen) (k :: seen2) (fun x => by simp [List.mem_cons, h x])]

theorem keysOf_mergeChunks :
    ∀ (cs : List Candidate) (m : CiteMap),
      keysOf (mergeChunks m cs) =
        keysOf m ++ dedupKeepFirst (keysOf m) (validUris cs) := by
  intro cs
  induction cs with
  | nil =>
    intro m
    simp [mergeChunks, validUris, dedupKeepFirst]
  | cons c rest ih =>
    intro m
    rw [mergeChunks_cons]
    cases hw : candWeb c with
    | none =>
      rw [insertChunk_none hw, validUris_cons_none hw]
      exact ih m
    | some w =>
      rw [insertChunk_some hw, validUris_cons_some hw]
      rw [ih (mapSet m w.uri w), keysOf_mapSet]
      by_cases hk : w.uri ∈ keysOf m
      · rw [if_pos hk]
        simp only [dedupKeepFirst, if_pos hk]
      · rw [if_neg hk]
        simp only [dedupKeepFirst, if_neg hk]
        rw [List.append_assoc, List.singleton_append]
        rw [dedupKeepFirst_congr (validUris rest) (keysOf m ++ [w.uri])
          (w.uri :: keysOf m)
          (fun x => by simp [List.mem_append, List.mem_cons, or_comm])]

theorem nodupKeys_mergeChunks :
    ∀ (cs : List Candidate) (m : CiteMap),
      (keysOf m).Nodup → (keysOf (mergeChunks m cs)).Nodup := by
  intro cs
  induction cs with
  | nil => intro m h; exact h
  | cons c rest ih =>
    intro m h
    rw [mergeChunks_cons]
    cases hw : candWeb c with
    | none =>
      rw [insertChunk_none hw]
      exact ih m h
    | some w =>
      rw [insertChunk_some hw]
      exact ih _ (nodup_keysOf_mapSet _ _ _ h)

theorem mem_mapSet_cases (m : CiteMap) (u : String) (w0 : GroundingWeb)
    (k : String) (w : GroundingWeb) (h : (k, w) ∈ mapSet m u w0) :
    (k = u ∧ w = w0) ∨ (k ≠ u ∧ (k, w) ∈ m) := by
  unfold mapSet at h
  by_cases hany : m.any (fun p => decide (p.1 = u)) = true
  · rw [if_pos hany] at h
    rcases List.mem_map.mp h with ⟨p, hp, hgp⟩
    by_cases hpk : p.1 = u
    · rw [if_pos hpk] at hgp
      rw [Prod.mk.injEq] at hgp
      exact Or.inl ⟨hgp.1.symm, hgp.2.symm⟩
    · rw [if_neg hpk] at hgp
      subst hgp
      exact Or.inr ⟨hpk, hp⟩
  · rw [if_neg hany] at h
    have hf : m.any (fun p => decide (p.1 = u)) = false := by
      revert hany
      cases m.any (fun p => decide (p.1 = u)) <;> simp
    rcases List.mem_append.mp h with h1 | h2
    · refine Or.inr ⟨?_, h1⟩
      intro hku
      have := List.any_eq_false.mp hf (k, w) h1
      simp only [decide_eq_true_eq] at this
      exact this hku
    · rw [List.mem_singleton, Prod.mk.injEq] at h2
      exact Or.inl ⟨h2.1, h2.2⟩

theorem mem_mergeChunks :
    ∀ (cs : List Candidate) (m : CiteMap) (k : String) (w : GroundingWeb),
      (k, w) ∈ mergeChunks m cs →
      (validFor cs k).getLast? = some w ∨
        (validFor cs k = [] ∧ (k, w) ∈ m) := by
  intro cs
  induction cs with
  | nil =>
    intro m k w h
    exact Or.inr ⟨rfl, h⟩
  | cons c rest ih =>
    intro m k w h
    rw [mergeChunks_cons] at h
    cases hw : candWeb c with
    | none =>
      rw [insertChunk_none hw] at h
      rw [validFor_cons_none hw]
      exact ih m k w h
    | some w0 =>
      rw [insertChunk_some hw] at h
      rw [validFor_cons_some hw]
      rcases ih (mapSet m w0.uri w0) k w h with hlast | ⟨hemp, hmem⟩
      · left
        by_cases hk : w0.uri = k
        · rw [if_pos hk]
          cases hl : validFor rest k with
          | nil =>
            rw [hl] at hlast
            simp at hlast
          | cons a t =>
            rw [hl] at hlast
            rw [List.getLast?_cons_cons]
            exact hlast
        · rw [if_neg hk]
          exact hlast
      · rcases mem_mapSet_cases m w0.uri w0 k w hmem with ⟨hke, hwe⟩ |
          ⟨hkne, hin⟩
        · left
          rw [if_pos hke.symm, hemp, hwe]
          rfl
        · right
          rw [if_neg (fun hh => hkne hh.symm)]
          exact ⟨hemp, hin⟩

/-! ### Helper lemmas about the streamed turn -/

theorem streamLoop_muts_le (m : Nat) :
    ∀ (chunks : List Chunk) (full : String) (cmap : CiteMap)
      (counter : Nat) (p : Nat × PState),
      p ∈ (streamLoop (some m) full cmap counter chunks).1 → p.1 ≤ m := by
  intro chunks
  induction chunks with
  | nil =>
    intro full cmap counter p hp
    simp [streamLoop] at hp
  | cons c rest ih =>
    intro full cmap counter p hp
    simp only [streamLoop] at hp
    by_cases hf : flagSet (some m) (counter + 1) = true
    · rw [if_pos hf] at hp
      simp at hp
    · rw [if_neg hf] at hp
      have hle : counter + 1 ≤ m := by
        simp only [flagSet, decide_eq_true_eq] at hf
        omega
      simp only [List.mem_cons] at hp
      rcases hp with h1 | h2
      · rw [h1]
        exact hle
      · exact ih _ _ _ p h2

theorem final_eq_atCancel_nil (e : Option String) (ac m : Nat) :
    finalState ⟨[], e, ac⟩ = stateAtCancel ⟨[], e, ac⟩ m := by
  simp [finalState, stateAtCancel]

theorem final_eq_atCancel_one (t1 : Nat) (s1 : PState) (e : Option String)
    (ac m : Nat) (h1 : t1 ≤ m) :
    finalState ⟨[(t1, s1)], e, ac⟩ = stateAtCancel ⟨[(t1, s1)], e, ac⟩ m := by
  simp [finalState, stateAtCancel, h1]

theorem final_eq_atCancel_two (t1 t2 : Nat) (s1 s2 : PState)
    (e : Option String) (ac m : Nat) (h1 : t1 ≤ m) (h2 : t2 ≤ m) :
    finalState ⟨[(t1, s1), (t2, s2)], e, ac⟩ =
      stateAtCancel ⟨[(t1, s1), (t2, s2)], e, ac⟩ m := by
  simp [finalState, stateAtCancel, h1, h2]

/-! ### C1 -/

/-- C1 counterexample: merging two citation candidates with the same
URI and the different titles `"t1"` (first) and `"t2"` (second) yields
one entry whose title is the **last**-seen `"t2"`, not the first-seen
`"t1"` — JS `Map.set` overwrites the stored value on a duplicate
key. -/
theorem C1_citationMerge_counterexample :
    (mergeChunks [] csDup).map (fun p => p.2.title) = ["t2"] ∧
    ("t2" : String) ≠ "t1" := by
  constructor
  · rfl
  · decide

/-- C1 (amended): after merging any sequence of streamed citation
candidates, the accumulated map has exactly one entry per URI, the
entries appear in first-insertion order of their URIs, and the entry
stored for a URI is the **last**-seen candidate carrying that URI (so
on a duplicate URI with different titles the last-seen title wins, not
the first-seen one). -/
theorem C1_citationMerge_amended (cs : List Candidate) :
    (keysOf (mergeChunks [] cs)).Nodup ∧
    keysOf (mergeChunks [] cs) = dedupKeepFirst [] (validUris cs) ∧
    (∀ (k : String) (w : GroundingWeb), (k, w) ∈ mergeChunks [] cs →
      (validFor cs k).getLast? = some w) := by
  refine ⟨nodupKeys_mergeChunks cs [] (by simp [keysOf]), ?_, ?_⟩
  · have := keysOf_mergeChunks cs []
    simpa [keysOf] using this
  · intro k w h
    rcases mem_mergeChunks cs [] k w h with h1 | ⟨_, h2⟩
    · exact h1
    · simp at h2

/-- C1 witness: on the concrete duplicate-URI candidate sequence
`csDup`, the entry stored for the URI is the last-seen payload. -/
theorem C1_citationMerge_witness :
    (validFor csDup "https://a.example").getLast? =
      some ⟨"https://a.example", "t2"⟩ :=
  (C1_citationMerge_amended csDup).2.2 "https://a.example"
    ⟨"https://a.example", "t2"⟩ (by decide)

/-! ### C2 -/

/-- C2 counterexample: with a follow-up image-edit candidate history,
a classifier that rewrites the prompt, and the cancellation flag set
during the classification await (await 0), the continuation after that
await still overwrites the placeholder with the image-in-progress
status string, so the final placeholder content differs from its
content at the moment the flag was set. -/
theorem C2_cancellation_counterexample :
    finalState (runTurn baseFU "make it red" [] (fun _ _ => "a red cat")
        (Except.ok "B") (Except.ok []) (some 0)) ≠
      stateAtCancel (runTurn baseFU "make it red" [] (fun _ _ => "a red cat")
        (Except.ok "B") (Except.ok []) (some 0)) 0 := by
  decide

/-- C2 (amended): once the cancellation flag is set during a turn, no
error is ever surfaced (an error is surfaced only when the schedule
lies beyond every await the turn performed), and the placeholder's
final state equals its state at the moment the flag was set — except
in one case the claim's "every post-await continuation point checks
the flag" does not cover: when the flag is set during the
modification-classification await of an image turn, the unprotected
continuation still writes the image-in-progress status string once, so
the final content is that status string while the content at
cancellation was still empty. -/
theorem C2_cancellation_amended :
    ∀ (base : List CMsg) (ui : String) (atts : List RawFile)
      (refinedOf : String → String → String)
      (imageResult : Except String String)
      (streamOpen : Except String (List Chunk)) (m : Nat),
      let r := runTurn base ui atts refinedOf imageResult streamOpen (some m)
      (r.errorOut = none ∨ r.awaitCount ≤ m) ∧
      (if (followUpCheck base atts).isSome = true ∧ m = 0 ∧
          turnIsImage base ui atts refinedOf = true then
        finalState r = ⟨"Generating your image...", [], []⟩ ∧
        stateAtCancel r m = initialP
      else finalState r = stateAtCancel r m) := by
  intro base ui atts refinedOf imageResult streamOpen m
  intro r
  have hr : r =
      runTurn base ui atts refinedOf imageResult streamOpen (some m) := rfl
  rw [hr]
  rcases hfu : followUpCheck base atts with _ | orig
  · -- no follow-up candidate: counter0 = 0, no classification await
    have hcond : ¬ ((none : Option String).isSome = true ∧ m = 0 ∧
        turnIsImage base ui atts refinedOf = true) := by
      simp
    rw [if_neg hcond]
    simp only [runTurn, classifyIntent, followUpResult, hfu, Option.isSome_none, Bool.false_eq_true, if_false, Bool.or_false, Bool.or_true, reduceIte]
    cases hd : isDirectImageRequest ui atts with
    | true =>
      simp only [if_true]
      cases imageResult with
      | ok b =>
        simp only []
        by_cases hm : m < 1
        · have hfl : flagSet (some m) (0 + 1) = true := by simp [flagSet, hm]
          rw [if_pos hfl]
          exact ⟨Or.inl (by trivial), final_eq_atCancel_one _ _ _ _ _ (Nat.zero_le m)⟩
        · have hfl : ¬ flagSet (some m) (0 + 1) = true := by
            simp only [flagSet, decide_eq_true_eq]
            omega
          rw [if_neg hfl]
          exact ⟨Or.inl (by trivial),
            final_eq_atCancel_two _ _ _ _ _ _ _ (Nat.zero_le m) (by omega)⟩
      | error e =>
        simp only []
        by_cases hm : m < 1
        · have hfl : flagSet (some m) (0 + 1) = true := by simp [flagSet, hm]
          rw [if_pos hfl]
          exact ⟨Or.inl (by trivial), final_eq_atCancel_one _ _ _ _ _ (Nat.zero_le m)⟩
        · have hfl : ¬ flagSet (some m) (0 + 1) = true := by
            simp only [flagSet, decide_eq_true_eq]
            omega
          rw [if_neg hfl]
          exact ⟨Or.inr (by simp; omega),
            final_eq_atCancel_two _ _ _ _ _ _ _ (Nat.zero_le m) (by omega)⟩
    | false =>
      simp only [Bool.false_eq_true, if_false]
      cases streamOpen with
      | error e =>
        simp only []
        by_cases hm : m < 1
        · have hfl : flagSet (some m) (0 + 1) = true := by simp [flagSet, hm]
          rw [if_pos hfl]
          exact ⟨Or.inl (by trivial), final_eq_atCancel_nil _ _ _⟩
        · have hfl : ¬ flagSet (some m) (0 + 1) = true := by
            simp only [flagSet, decide_eq_true_eq]
            omega
          rw [if_neg hfl]
          exact ⟨Or.inr (by simp; omega),
            final_eq_atCancel_one _ _ _ _ _ (by omega)⟩
      | ok chunks =>
        simp only []
        refine ⟨Or.inl (by trivial), ?_⟩
        have hfilter :
            ((streamLoop (some m) "" [] (0 + 1) chunks).1).filter
              (fun p => decide (p.1 ≤ m)) =
              (streamLoop (some m) "" [] (0 + 1) chunks).1 :=
          List.filter_eq_self.mpr (fun a ha => by
            simpa using streamLoop_muts_le m chunks "" [] (0 + 1) a ha)
        simp only [finalState, stateAtCancel, hfilter]
  · -- follow-up candidate: counter0 = 1, classification await happened
    by_cases hr0 : refinedOf orig ui = "NO_MODIFICATION"
    · cases hd : isDirectImageRequest ui atts with
      | false =>
        have hcond : ¬ ((some orig).isSome = true ∧ m = 0 ∧
            turnIsImage base ui atts refinedOf = true) := by
          simp [turnIsImage, followUpResult, hfu, hr0, hd]
        rw [if_neg hcond]
        simp only [runTurn, classifyIntent, followUpResult, hfu, Option.isSome_some, if_true, hr0, hd, Bool.or_false, Bool.false_eq_true, if_false, Bool.or_true, reduceIte]
        cases streamOpen with
        | error e =>
          simp only []
          by_cases hm : m < 2
          · have hfl : flagSet (some m) (1 + 1) = true := by
              simp [flagSet, hm]
            rw [if_pos hfl]
            exact ⟨Or.inl (by trivial), final_eq_atCancel_nil _ _ _⟩
          · have hfl : ¬ flagSet (some m) (1 + 1) = true := by
              simp only [flagSet, decide_eq_true_eq]
              omega
            rw [if_neg hfl]
            exact ⟨Or.inr (by simp; omega),
              final_eq_atCancel_one _ _ _ _ _ (by omega)⟩
        | ok chunks =>
          simp only []
          refine ⟨Or.inl (by trivial), ?_⟩
          have hfilter :
              ((streamLoop (some m) "" [] (1 + 1) chunks).1).filter
                (fun p => decide (p.1 ≤ m)) =
                (streamLoop (some m) "" [] (1 + 1) chunks).1 :=
            List.filter_eq_self.mpr (fun a ha => by
              simpa using streamLoop_muts_le m chunks "" [] (1 + 1) a ha)
          simp only [finalState, stateAtCancel, hfilter]
      | true =>
        have himg : turnIsImage base ui atts refinedOf = true := by
          simp [turnIsImage, followUpResult, hfu, hr0, hd]
        by_cases hm0 : m = 0
        · subst hm0
          rw [if_pos ⟨rfl, rfl, himg⟩]
          simp only [runTurn, classifyIntent, followUpResult, hfu, Option.isSome_some, if_true, hr0, hd, Bool.or_false, Bool.or_true, reduceIte]
          have hfl : flagSet (some 0) (1 + 1) = true := by simp [flagSet]
          cases imageResult with
          | ok b =>
            simp only []
            rw [if_pos hfl]
            exact ⟨Or.inl (by trivial), by simp [finalState], by simp [stateAtCancel]⟩
          | error e =>
            simp only []
            rw [if_pos hfl]
            exact ⟨Or.inl (by trivial), by simp [finalState], by simp [stateAtCancel]⟩
        · have hcond : ¬ ((some orig).isSome = true ∧ m = 0 ∧
              turnIsImage base ui atts refinedOf = true) := by
            intro hc
            exact hm0 hc.2.1
          rw [if_neg hcond]
          simp only [runTurn, classifyIntent, followUpResult, hfu, Option.isSome_some, if_true, hr0, hd, Bool.or_false, Bool.or_true, reduceIte]
          cases imageResult with
          | ok b =>
            simp only []
            by_cases hm2 : m < 2
            · have hfl : flagSet (some m) (1 + 1) = true := by
                simp [flagSet, hm2]
              rw [if_pos hfl]
              exact ⟨Or.inl (by trivial), final_eq_atCancel_one _ _ _ _ _ (by omega)⟩
            · have hfl : ¬ flagSet (some m) (1 + 1) = true := by
                simp only [flagSet, decide_eq_true_eq]
                omega
              rw [if_neg hfl]
              exact ⟨Or.inl (by trivial),
                final_eq_atCancel_two _ _ _ _ _ _ _ (by omega) (by omega)⟩
          | error e =>
            simp only []
            by_cases hm2 : m < 2
            · have hfl : flagSet (some m) (1 + 1) = true := by
                simp [flagSet, hm2]
              rw [if_pos hfl]
              exact ⟨Or.inl (by trivial), final_eq_atCancel_one _ _ _ _ _ (by omega)⟩
            · have hfl : ¬ flagSet (some m) (1 + 1) = true := by
                simp only [flagSet, decide_eq_true_eq]
                omega
              rw [if_neg hfl]
              exact ⟨Or.inr (by simp; omega),
                final_eq_atCancel_two _ _ _ _ _ _ _ (by omega) (by omega)⟩
    · have himg : turnIsImage base ui atts refinedOf = true := by
        simp [turnIsImage, followUpResult, hfu, hr0]
      by_cases hm0 : m = 0
      · subst hm0
        rw [if_pos ⟨rfl, rfl, himg⟩]
        simp only [runTurn, classifyIntent, followUpResult, hfu, Option.isSome_some, if_true, hr0, if_false, Bool.or_true, Bool.or_false, reduceIte]
        have hfl : flagSet (some 0) (1 + 1) = true := by simp [flagSet]
        cases imageResult with
        | ok b =>
          simp only []
          rw [if_pos hfl]
          exact ⟨Or.inl (by trivial), by simp [finalState], by simp [stateAtCancel]⟩
        | error e =>
          simp only []
          rw [if_pos hfl]
          exact ⟨Or.inl (by trivial), by simp [finalState], by simp [stateAtCancel]⟩
      · have hcond : ¬ ((some orig).isSome = true ∧ m = 0 ∧
            turnIsImage base ui atts refinedOf = true) := by
          intro hc
          exact hm0 hc.2.1
        rw [if_neg hcond]
        simp only [runTurn, classifyIntent, followUpResult, hfu, Option.isSome_some, if_true, hr0, if_false, Bool.or_true, Bool.or_false, reduceIte]
        cases imageResult with
        | ok b =>
          simp only []
          by_cases hm2 : m < 2
          · have hfl : flagSet (some m) (1 + 1) = true := by
              simp [flagSet, hm2]
            rw [if_pos hfl]
            exact ⟨Or.inl (by trivial), final_eq_atCancel_one _ _ _ _ _ (by omega)⟩
          · have hfl : ¬ flagSet (some m) (1 + 1) = true := by
              simp only [flagSet, decide_eq_true_eq]
              omega
            rw [if_neg hfl]
            exact ⟨Or.inl (by trivial),
              final_eq_atCancel_two _ _ _ _ _ _ _ (by omega) (by omega)⟩
        | error e =>
          simp only []
          by_cases hm2 : m < 2
          · have hfl : flagSet (some m) (1 + 1) = true := by
              simp [flagSet, hm2]
            rw [if_pos hfl]
            exact ⟨Or.inl (by trivial), final_eq_atCancel_one _ _ _ _ _ (by omega)⟩
          · have hfl : ¬ flagSet (some m) (1 + 1) = true := by
              simp only [flagSet, decide_eq_true_eq]
              omega
            rw [if_neg hfl]
            exact ⟨Or.inr (by simp; omega),
              final_eq_atCancel_two _ _ _ _ _ _ _ (by omega) (by omega)⟩

/-! ### C3, C4, C7, C8 -/

/-- C3: persisting the session collection and loading it back yields
the identical collection, except that the raw file handles of the
`files` field are erased by serialization; every other field of every
session and message is unchanged by the round trip. -/
theorem C3_persistRoundTrip :
    ∀ ss : List CSession,
      loadSessions (persistSessions ss) = ss.map persistSession ∧
      (∀ s : CSession,
        (persistSession s).id = s.id ∧ (persistSession s).title = s.title ∧
        (persistSession s).isPinned = s.isPinned ∧
        (persistSession s).messages = s.messages.map persistMessage) ∧
      (∀ m : CMsg,
        (persistMessage m).id = m.id ∧
        (persistMessage m).author = m.author ∧
        (persistMessage m).content = m.content ∧
        (persistMessage m).attachments = m.attachments ∧
        (persistMessage m).groundingChunks = m.groundingChunks ∧
        (persistMessage m).files = m.files.map (fun _ => ())) := by
  intro ss
  exact ⟨rfl, fun s => ⟨rfl, rfl, rfl, rfl⟩,
         fun m => ⟨rfl, rfl, rfl, rfl, rfl, rfl⟩⟩

/-- C4: the intent classification of `handleSendMessage` agrees, for
every base history, input, attachment list and classifier outcome,
with the ordered decision procedure of the claim: follow-up image-edit
candidate with non-sentinel classifier result first (image turn with
the rewritten prompt), then keyword match without attachments (image
turn with the raw input), otherwise a text turn. -/
theorem C4_intentClassification :
    ∀ (base : List CMsg) (userInput : String) (attachments : List RawFile)
      (refinedOf : String → String → String),
      classifyIntent base userInput attachments refinedOf =
        classifyIntentSpec base userInput attachments refinedOf := by
  intro base userInput attachments refinedOf
  rcases hfu : followUpCheck base attachments with _ | orig <;>
    simp only [classifyIntent, classifyIntentSpec, followUpResult, hfu]
  · cases hd : isDirectImageRequest userInput attachments <;> simp [hd]
  · by_cases hr : refinedOf orig userInput = "NO_MODIFICATION"
    · cases hd : isDirectImageRequest userInput attachments <;> simp [hr, hd]
    · simp [hr]

/-- C7: the history projection keeps exactly the messages with
non-empty text content, in order, each reduced to role and text;
attachments, citations and file handles are dropped.  In particular
`[{user,"hi"}, {model,""}, {model,"ok"}]` projects to
`[{user,"hi"}, {model,"ok"}]`. -/
theorem C7_historyProjection :
    messagesToHistory ([] : List CMsg) = [] ∧
    (∀ (msg : CMsg) (messages : List CMsg),
      messagesToHistory (msg :: messages) =
        if msg.content = "" then messagesToHistory messages
        else ⟨msg.author, [msg.content]⟩ :: messagesToHistory messages) ∧
    messagesToHistory
        [⟨"u1", .user, "hi", [⟨"f.txt", "blob:f", "text/plain"⟩], [],
          [⟨"f.txt", "text/plain", 3⟩]⟩,
         mkMsg "m1" .model "",
         ⟨"m2", .model, "ok", [], [⟨⟨"https://s.example", "S"⟩⟩], []⟩] =
      [⟨.user, ["hi"]⟩, ⟨.model, ["ok"]⟩] := by
  refine ⟨rfl, ?_, by decide⟩
  intro msg messages
  by_cases h : msg.content = ""
  · simp [messagesToHistory, List.filter_cons, h]
  · simp [messagesToHistory, List.filter_cons, h]

/-- C8: the modification classifier never propagates an error: its
result is always a normal return, and on internal failure it is the
sentinel `"NO_MODIFICATION"`. -/
theorem C8_classifierNeverThrows :
    (∀ callResult : Except String String,
        (generateRefinedPromptModel callResult).isOk = true) ∧
    (∀ e : String,
        generateRefinedPromptModel (Except.error e) =
          Except.ok "NO_MODIFICATION") := by
  constructor
  · intro r
    cases r <;> rfl
  · intro e
    rfl

/-! ### C9, C10 -/

/-- C9: each keyed session update (message replacement during a turn,
rename, pin toggle) preserves the collection's length and order and
leaves every session whose id differs from the target byte-for-byte
unchanged. -/
theorem C9_keyedUpdateFrame :
    ∀ (sessions : List CSession) (cid : String)
      (updater : List CMsg → List CMsg) (newTitle : String) (pinned : Bool),
      (updateSessionMessages sessions cid updater).length = sessions.length ∧
      (handleRenameSession sessions cid newTitle).length = sessions.length ∧
      (handlePinSession sessions cid pinned).length = sessions.length ∧
      (∀ (k : Nat) (s : CSession), sessions[k]? = some s → s.id ≠ cid →
        (updateSessionMessages sessions cid updater)[k]? = some s ∧
        (handleRenameSession sessions cid newTitle)[k]? = some s ∧
        (handlePinSession sessions cid pinned)[k]? = some s) := by
  intro sessions cid updater newTitle pinned
  refine ⟨by simp [updateSessionMessages], by simp [handleRenameSession],
          by simp [handlePinSession], ?_⟩
  intro k s hk hid
  refine ⟨?_, ?_, ?_⟩ <;>
    simp [updateSessionMessages, handleRenameSession, handlePinSession,
          List.getElem?_map, hk, hid]

/-- C9 witness: updating, renaming or pinning session `"a"` leaves the
session `"b"` at index 1 unchanged. -/
theorem C9_keyedUpdateFrame_witness :
    (updateSessionMessages [sA, sB] "a" (fun ms => ms))[1]? = some sB ∧
    (handleRenameSession [sA, sB] "a" "T")[1]? = some sB ∧
    (handlePinSession [sA, sB] "a" true)[1]? = some sB :=
  (C9_keyedUpdateFrame [sA, sB] "a" (fun ms => ms) "T" true).2.2.2 1 sB
    (by decide) (by decide)

/-- C10: when an edit target is active and attachments are supplied,
`handleSendMessage` returns before any effect: the whole app state
(sessions, active id, loading flag, error, edit target) is unchanged
and no turn setup is produced. -/
theorem C10_editAttachmentsGuard :
    ∀ (st : AppState) (userInput : String) (attachments : List RawFile)
      (nsid umid mmid : String) (urlOf : RawFile → String) (e : EditTarget),
      st.editingMessage = some e → attachments ≠ [] →
      handleSendMessageSetup st userInput attachments nsid umid mmid urlOf =
        (st, none) := by
  intro st userInput attachments nsid umid mmid urlOf e he ha
  unfold handleSendMessageSetup
  rw [he]
  cases attachments with
  | nil => exact absurd rfl ha
  | cons a t => rfl

/-- C5: submitting a turn while editing the message at index `i` of
the active session truncates the base to the first `i` messages,
projects the backend history from that prefix only, and appends the
new user message and the model placeholder, so the session holds
`i + 2` messages right after the optimistic update. -/
theorem C5_editTruncation :
    ∀ (st : AppState) (ui nsid umid mmid : String) (urlOf : RawFile → String)
      (e : EditTarget) (cid : String) (s : CSession) (i : Nat),
      st.editingMessage = some e →
      st.activeSessionId = some cid →
      st.sessions.find? (fun x => decide (x.id = cid)) = some s →
      s.messages.findIdx? (fun mm => decide (mm.id = e.id)) = some i →
      ∃ setup : TurnSetup,
        (handleSendMessageSetup st ui [] nsid umid mmid urlOf).2 =
          some setup ∧
        setup.baseMessages = s.messages.take i ∧
        setup.historyForAPI = messagesToHistory (s.messages.take i) ∧
        ((handleSendMessageSetup st ui [] nsid umid mmid
            urlOf).1).sessions.find? (fun x => decide (x.id = cid)) =
          some { s with messages := s.messages.take i ++
                   [setup.userMessage, ⟨mmid, .model, "", [], [], []⟩] } ∧
        (s.messages.take i ++
           [setup.userMessage, ⟨mmid, .model, "", [], [], []⟩]).length =
          i + 2 := by
  intro st ui nsid umid mmid urlOf e cid s i he hact hfind hidx
  have hs_id : s.id = cid := by
    have := List.find?_some hfind
    simpa using this
  have hilen : i < s.messages.length := findIdx_lt_len hidx
  have hg : ∀ x : CSession,
      ((fun x : CSession =>
          if x.id = cid then
            { x with messages := s.messages.take i ++
                [⟨umid, .user, ui, [], [], []⟩,
                 ⟨mmid, .model, "", [], [], []⟩] }
          else x) x).id = x.id := by
    intro x
    by_cases h : x.id = cid <;> simp [h]
  have hres : resolveSession st nsid
      (ui.take 40 ++ (if ui.length > 40 then "..." else "")) =
      (cid, s, st.sessions) := by
    simp only [resolveSession, hact, hfind]
  have hrun : handleSendMessageSetup st ui [] nsid umid mmid urlOf =
      ({ sessions := st.sessions.map (fun x : CSession =>
           if x.id = cid then
             { x with messages := s.messages.take i ++
                 [⟨umid, .user, ui, [], [], []⟩,
                  ⟨mmid, .model, "", [], [], []⟩] }
           else x),
         activeSessionId := some cid, isLoading := true, error := none,
         editingMessage := none },
       some ⟨cid, s.messages.take i, messagesToHistory (s.messages.take i),
             ⟨umid, .user, ui, [], [], []⟩, mmid⟩) := by
    simp only [handleSendMessageSetup, hres, he, hidx]
    rfl
  refine ⟨⟨cid, s.messages.take i, messagesToHistory (s.messages.take i),
           ⟨umid, .user, ui, [], [], []⟩, mmid⟩, ?_, rfl, rfl, ?_, ?_⟩
  · rw [hrun]
  · rw [hrun]
    rw [find_map_keyed _ hg, hfind]
    simp [hs_id]
  · simp only [List.length_append, List.length_take, List.length_cons,
      List.length_nil]
    omega

/-- C5 witness: editing message `"m2"` (index 2) of the five-message
session `exSession5` leaves a base of 2 messages and a session of
`2 + 2 = 4` messages after the optimistic update. -/
theorem C5_editTruncation_witness :
    ∃ setup : TurnSetup,
      (handleSendMessageSetup exState5 "new question" [] "ns" "nu" "nm"
          (fun _ => "blob:")).2 = some setup ∧
      setup.baseMessages = exSession5.messages.take 2 ∧
      setup.historyForAPI = messagesToHistory (exSession5.messages.take 2) ∧
      ((handleSendMessageSetup exState5 "new question" [] "ns" "nu" "nm"
          (fun _ => "blob:")).1).sessions.find?
          (fun x => decide (x.id = "s1")) =
        some { exSession5 with messages := exSession5.messages.take 2 ++
                 [setup.userMessage, ⟨"nm", .model, "", [], [], []⟩] } ∧
      (exSession5.messages.take 2 ++
         [setup.userMessage, ⟨"nm", .model, "", [], [], []⟩]).length =
        2 + 2 :=
  C5_editTruncation exState5 "new question" "ns" "nu" "nm" (fun _ => "blob:")
    ⟨"m2", "q1"⟩ "s1" exSession5 2 rfl rfl (by decide) (by decide)

/-- C6: regenerating the model message at index `i > 0` whose
predecessor is a user message truncates the active session to its
first `i − 1` messages and re-submits that user message's original
content and raw file handles as the new turn's input. -/
theorem C6_regenerateTruncation :
    ∀ (st : AppState) (cid mid : String) (s : CSession) (i : Nat) (u : CMsg),
      st.activeSessionId = some cid →
      st.sessions.find? (fun x => decide (x.id = cid)) = some s →
      s.messages.findIdx? (fun msg => decide (msg.id = mid)) = some i →
      0 < i →
      s.messages[i - 1]? = some u →
      u.author = .user →
      ∃ st2 : AppState,
        handleRegenerate st mid = some (st2, u.content, u.files) ∧
        st2.sessions.find? (fun x => decide (x.id = cid)) =
          some { s with messages := s.messages.take (i - 1) } ∧
        st2.activeSessionId = st.activeSessionId ∧
        st2.editingMessage = st.editingMessage ∧
        st2.sessions.length = st.sessions.length := by
  intro st cid mid s i u hact hfind hidx hpos hget huser
  have hs_id : s.id = cid := by
    have := List.find?_some hfind
    simpa using this
  have hg : ∀ x : CSession,
      ((fun x : CSession =>
          if x.id = cid then
            { x with messages := s.messages.take (i - 1) }
          else x) x).id = x.id := by
    intro x
    by_cases h : x.id = cid <;> simp [h]
  refine ⟨{ st with sessions := st.sessions.map (fun x : CSession =>
      if x.id = cid then { x with messages := s.messages.take (i - 1) }
      else x) }, ?_, ?_, rfl, rfl, by simp⟩
  · simp only [handleRegenerate, hact, hfind, hidx, hget]
    rw [if_pos hpos, if_pos huser]
  · rw [find_map_keyed _ hg, hfind]
    simp [hs_id]

/-- C6 witness: regenerating model message `"r3"` (index 3) of
`exSessionR` truncates the session to its first 2 messages and
re-submits `("q1", [exFile])`. -/
theorem C6_regenerateTruncation_witness :
    ∃ st2 : AppState,
      handleRegenerate exStateR "r3" =
        some (st2, "q1", [exFile]) ∧
      st2.sessions.find? (fun x => decide (x.id = "s2")) =
        some { exSessionR with messages := exSessionR.messages.take 2 } ∧
      st2.activeSessionId = exStateR.activeSessionId ∧
      st2.editingMessage = exStateR.editingMessage ∧
      st2.sessions.length = exStateR.sessions.length :=
  C6_regenerateTruncation exStateR "s2" "r3" exSessionR 3
    ⟨"r2", .user, "q1", [], [], [exFile]⟩ rfl (by decide) (by decide)
    (by decide) (by decide) (by decide)

/-- C10 witness: submitting with one attachment while editing leaves
the concrete state `exStateE` unchanged. -/
theorem C10_editAttachmentsGuard_witness :
    handleSendMessageSetup exStateE "x" [exFile] "n" "u" "m"
        (fun _ => "blob:") = (exStateE, none) :=
  C10_editAttachmentsGuard exStateE "x" [exFile] "n" "u" "m"
    (fun _ => "blob:") ⟨"x", "old"⟩ rfl (by decide)

end ChatApp
